import Mathlib

/-! Verification development for the DiskCheck scanning engine
(`src-tauri/src/scanner.rs` and its wrapper in `src-tauri/src/lib.rs`).

The Rust scanner walks a directory tree with an explicit frame stack,
computes exact (saturating) `u64` sizes, prunes the returned children lists
for IPC safety, counts skipped entries, and reports throttled progress.
This file gives a shallow embedding of that engine:

* the filesystem seen by the scanner is an inductive tree (`FsObj`/`Items`)
  whose constructors correspond one-to-one to the outcomes of the syscalls
  the scanner performs (`symlink_metadata`, `file_type`, `read_dir`,
  iterator `next`);
* machine integers are `Nat` with explicit saturation / wrap-around where
  the Rust code uses `saturating_add`, `saturating_mul` or the wrapping
  `fetch_add` of `AtomicU64`;
* `Instant::now()` is an explicit `Nat` timestamp (milliseconds): the
  in-walk emission attempts read successive timestamps from an explicit
  schedule threaded through the scan state;
* the depth-first explicit-stack loop of `scan_pruned_tree` is embedded as
  the structurally recursive pair `scanEntry`/`scanItems`: pushing a frame
  and draining it before resuming the parent is exactly a recursive call,
  and each `match` arm below mirrors one arm of the Rust loop body.
-/

namespace DiskCheck

/-! ## Machine arithmetic -/

/-- 2^64, the modulus of `u64`. -/
def U64_MOD : Nat := 18446744073709551616

/-- `u64::MAX`. -/
def U64_MAX : Nat := 18446744073709551615

/-- `u64::saturating_add` on `Nat` representatives. -/
def satAdd64 (a b : Nat) : Nat := min (a + b) U64_MAX

/-- Wrapping `u64` addition, as performed by `AtomicU64::fetch_add`. -/
def wrapAdd64 (a b : Nat) : Nat := (a + b) % U64_MOD

/-- `usize::saturating_mul` (64-bit target) on `Nat` representatives. -/
def satMulUsize (a b : Nat) : Nat := min (a * b) U64_MAX

/-! ## Path helpers (`display_name`, `file_extension_lower`)

`scanner.rs` lines 123-133.  Paths are modelled as strings; splitting is
implemented on `List Char` so that everything reduces in the kernel.
`splitOnC sep l` agrees with Rust/Lean `String.splitOn` for a one-character
separator. -/

/-- Accumulator-style character splitter: `splitOnAuxC sep cs acc` splits
`cs` at every occurrence of `sep`, with `acc` the (reversed) chunk read so
far. -/
def splitOnAuxC (sep : Char) : List Char → List Char → List (List Char)
  | [], acc => [acc.reverse]
  | c :: cs, acc =>
      if c = sep then acc.reverse :: splitOnAuxC sep cs []
      else splitOnAuxC sep cs (c :: acc)

/-- Split a character list at every occurrence of `sep`. -/
def splitOnC (sep : Char) (l : List Char) : List (List Char) :=
  splitOnAuxC sep l []

/-- `Path::file_name`: the last nonempty `/`-separated component of the
path, if any. -/
def fileNameChars (path : List Char) : Option (List Char) :=
  ((splitOnC '/' path).filter (· ≠ [])).getLast?

/-- `display_name` (scanner.rs lines 123-127): the file name of the path,
falling back to the whole path. -/
def display_name (path : String) : String :=
  match fileNameChars path.data with
  | some l => ⟨l⟩
  | none => path

/-- `Path::extension` on a file name: `none` when there is no embedded `.`
or when the name starts with its only `.` (hidden files); otherwise the
portion after the final `.`. -/
def extensionChars (fname : List Char) : Option (List Char) :=
  let parts := splitOnC '.' fname
  match parts with
  | [] => none
  | [_] => none
  | [[], _] => none
  | _ => parts.getLast?

/-- `str::to_lowercase`, characterwise. -/
def lowerChars (l : List Char) : List Char := l.map Char.toLower

/-- `file_extension_lower` (scanner.rs lines 129-133): the lowercased
extension of the path's file name, filtered to be nonempty. -/
def file_extension_lower (path : String) : Option String :=
  match fileNameChars path.data with
  | none => none
  | some fname =>
    match extensionChars fname with
    | none => none
    | some ext =>
      let e := lowerChars ext
      if e = [] then none else some ⟨e⟩

/-- `DirEntry::path()`: the parent directory's path joined with the entry's
file name. -/
def joinPath (dir name : String) : String := dir ++ "/" ++ name

/-! ## The returned tree (`FsNodeKind`, `FsNode`), scanner.rs lines 22-44 -/

/-- `FsNodeKind` (scanner.rs lines 24-29). -/
inductive FsNodeKind where
  | File
  | Directory
  | Symlink
  | Other
deriving DecidableEq

/-- `FsNode` (scanner.rs lines 33-44): one entry of the returned, pruned
tree. -/
inductive FsNode where
  | mk (name : String) (path : String) (kind : FsNodeKind) (size : Nat)
       (children : List FsNode) (extension : Option String)
       (error : Option String)

/-- Field `FsNode.name`. -/
def FsNode.name : FsNode → String
  | .mk n _ _ _ _ _ _ => n

/-- Field `FsNode.path`. -/
def FsNode.path : FsNode → String
  | .mk _ p _ _ _ _ _ => p

/-- Field `FsNode.kind`. -/
def FsNode.kind : FsNode → FsNodeKind
  | .mk _ _ k _ _ _ _ => k

/-- Field `FsNode.size`. -/
def FsNode.size : FsNode → Nat
  | .mk _ _ _ s _ _ _ => s

/-- Field `FsNode.children`. -/
def FsNode.children : FsNode → List FsNode
  | .mk _ _ _ _ cs _ _ => cs

/-- Field `FsNode.extension`. -/
def FsNode.extension : FsNode → Option String
  | .mk _ _ _ _ _ e _ => e

/-- Field `FsNode.error`. -/
def FsNode.error : FsNode → Option String
  | .mk _ _ _ _ _ _ e => e

mutual
/-- Total number of nodes of a returned tree, the root included. -/
def countNodes : FsNode → Nat
  | .mk _ _ _ _ cs _ _ => 1 + countList cs

/-- Total number of nodes of a list of trees. -/
def countList : List FsNode → Nat
  | [] => 0
  | n :: ns => countNodes n + countList ns
end

/-- `InTree m n`: the node `m` occurs in the tree rooted at `n` (as `n`
itself or inside some children list). -/
inductive InTree : FsNode → FsNode → Prop where
  | refl (n : FsNode) : InTree n n
  | child {m c n : FsNode} : c ∈ n.children → InTree m c → InTree m n

/-! ## Progress reporter (scanner.rs lines 46-121)

`Instant` is a `Nat` millisecond timestamp.  `emit` pushes the payload the
Rust code sends over the Tauri event channel onto an event trace; the
window handle itself is not modelled. -/

/-- `ScanProgressPayload` (scanner.rs lines 48-53). -/
structure ScanProgressPayload where
  scanned_files : Nat
  scanned_dirs : Nat
  total_bytes : Nat
  current_path : Option String
deriving DecidableEq

/-- `ProgressReporter` (scanner.rs lines 55-61): the three atomic counters,
the mutex-guarded last-emit instant, and the trace of events emitted so
far (standing in for the window the Rust code emits to). -/
structure ProgressReporter where
  scanned_files : Nat
  scanned_dirs : Nat
  total_bytes : Nat
  last_emit : Nat
  events : List ScanProgressPayload
deriving DecidableEq

/-- `ProgressReporter::new` (scanner.rs lines 64-72) at creation instant
`t`: zeroed counters, `last_emit = Instant::now()`, nothing emitted. -/
def ProgressReporter.new (t : Nat) : ProgressReporter :=
  ⟨0, 0, 0, t, []⟩

/-- `ProgressReporter::emit` (scanner.rs lines 111-120): send a snapshot of
the counters with the given current path. -/
def ProgressReporter.emit (r : ProgressReporter) (p : Option String) :
    ProgressReporter :=
  { r with events :=
      r.events ++ [⟨r.scanned_files, r.scanned_dirs, r.total_bytes, p⟩] }

/-- `ProgressReporter::emit_force` (scanner.rs lines 91-96) at instant
`now`: emit unconditionally, then reset the throttle clock. -/
def ProgressReporter.emit_force (r : ProgressReporter) (now : Nat)
    (p : Option String) : ProgressReporter :=
  { r.emit p with last_emit := now }

/-- `ProgressReporter::maybe_emit` (scanner.rs lines 98-109) at instant
`now`: emit (forced) only if at least 120ms elapsed since `last_emit`;
`Instant` durations saturate at zero, which is `Nat` subtraction. -/
def ProgressReporter.maybe_emit (r : ProgressReporter) (now : Nat)
    (p : Option String) : ProgressReporter :=
  if 120 ≤ now - r.last_emit then r.emit_force now p else r

/-! ## Scan configuration and state (scanner.rs lines 147-170) -/

/-- `ScanOptions` (scanner.rs lines 148-152). -/
structure ScanOptions where
  min_node_bytes : Nat
  max_children_per_dir : Nat
  max_total_nodes : Nat
deriving DecidableEq

/-- `ScanStats` (scanner.rs lines 155-158). -/
structure ScanStats where
  skipped_entries : Nat
  hit_node_limit : Bool
deriving DecidableEq

/-- The state threaded through the scan loop: the local `returned_nodes`
counter and `ScanStats` of `scan_pruned_tree`, the shared
`ProgressReporter`, and the schedule of `Instant::now()` timestamps that
the in-walk emission attempts will observe (head first). -/
structure ScanState where
  returned_nodes : Nat
  stats : ScanStats
  rep : ProgressReporter
  times : List Nat
deriving DecidableEq

/-- Read the next `Instant::now()` from the schedule. -/
def ScanState.popTime (st : ScanState) : Nat × ScanState :=
  (st.times.headD 0, { st with times := st.times.tail })

/-- `ProgressReporter::file_scanned` (scanner.rs lines 74-82) as a state
update: bump the file counter and byte total (wrapping `fetch_add`), and
attempt a throttled emission on every 512th call. -/
def ScanState.file_scanned (st : ScanState) (bytes : Nat) (path : String) :
    ScanState :=
  let next := wrapAdd64 st.rep.scanned_files 1
  let st := { st with rep :=
      { st.rep with scanned_files := next,
                    total_bytes := wrapAdd64 st.rep.total_bytes bytes } }
  if next % 512 == 0 then
    let (now, st') := st.popTime
    { st' with rep := st'.rep.maybe_emit now (some path) }
  else st

/-- `ProgressReporter::dir_scanned` (scanner.rs lines 84-89) as a state
update: bump the directory counter and attempt a throttled emission on
every 64th call. -/
def ScanState.dir_scanned (st : ScanState) (path : String) : ScanState :=
  let next := wrapAdd64 st.rep.scanned_dirs 1
  let st := { st with rep := { st.rep with scanned_dirs := next } }
  if next % 64 == 0 then
    let (now, st') := st.popTime
    { st' with rep := st'.rep.maybe_emit now (some path) }
  else st

/-- `stats.skipped_entries = stats.skipped_entries.saturating_add(1)`
(scanner.rs lines 267, 328, 338). -/
def ScanState.incSkipped (st : ScanState) : ScanState :=
  let k := min (st.stats.skipped_entries + 1) U64_MAX
  { st with stats := { st.stats with skipped_entries := k } }

/-- `stats.hit_node_limit = true` (scanner.rs lines 304, 368). -/
def ScanState.setHitLimit (st : ScanState) : ScanState :=
  { st with stats := { st.stats with hit_node_limit := true } }

/-! ## The filesystem as the scanner observes it

`FsObj` describes what the scanner's syscalls see at one path:
`symlink_metadata` may fail (`metaErr`), else the file type is a symlink,
a regular file with a length, a directory (for which `read_dir` either
fails, `dirErr`, or yields an entry sequence, `dir`), or anything else
(`other`).  `Items` is the sequence produced by the `ReadDir` iterator:
each step is `Err(_)` (`err`) or `Ok(entry)` with a file name and the
`FsObj` found at the entry's path (`entry`). -/

mutual
/-- What the scanner's metadata/read-dir syscalls observe at one path. -/
inductive FsObj where
  | metaErr (msg : String)
  | symlink
  | file (size : Nat)
  | other
  | dirErr (msg : String)
  | dir (entries : Items)

/-- The outcome sequence of a `ReadDir` iterator. -/
inductive Items where
  | nil
  | err (rest : Items)
  | entry (name : String) (obj : FsObj) (rest : Items)
end

mutual
/-- True total size of the regular files the traversal can reach at an
object: symlinks, entries whose metadata cannot be read, unreadable
directories and `Err` iterator outcomes contribute nothing, exactly as the
scanner skips them. -/
def objTrueSize : FsObj → Nat
  | .file s => s
  | .dir items => itemsTrueSize items
  | _ => 0

/-- True total size of the files reachable through an entry sequence. -/
def itemsTrueSize : Items → Nat
  | .nil => 0
  | .err rest => itemsTrueSize rest
  | .entry _ obj rest => objTrueSize obj + itemsTrueSize rest
end

/-! ## Retention (`maybe_keep_child` and frame finalization) -/

/-- Stable insertion into a size-descending list: keep going past strictly
larger elements, so that equal sizes preserve their original order. -/
def insertDesc (x : FsNode) : List FsNode → List FsNode
  | [] => [x]
  | y :: ys => if x.size < y.size then y :: insertDesc x ys else x :: y :: ys

/-- Stable sort by descending `size`, modelling
`children.sort_by(|a, b| b.size.cmp(&a.size))` (Rust's `sort_by` is
stable, so any stable descending sort computes the same list). -/
def sortByDesc : List FsNode → List FsNode
  | [] => []
  | x :: xs => insertDesc x (sortByDesc xs)

/-- `maybe_keep_child` (scanner.rs lines 172-180): push the candidate; once
the buffer holds `2 * max_children_per_dir` entries, sort descending by
size and truncate to the largest `max_children_per_dir`. -/
def maybe_keep_child (children : List FsNode) (child : FsNode)
    (max_children_per_dir : Nat) : List FsNode :=
  let cs := children ++ [child]
  if satMulUsize max_children_per_dir 2 ≤ cs.length then
    (sortByDesc cs).take max_children_per_dir
  else cs

/-- Frame finalization of a children buffer (scanner.rs lines 347-351):
sort descending by size, truncate only if over `max_children_per_dir`. -/
def finalizeChildren (ch : List FsNode) (maxc : Nat) : List FsNode :=
  let s := sortByDesc ch
  if maxc < s.length then s.take maxc else s

/-! ## The traversal engine (the loop of `scan_pruned_tree`)

One iteration of the Rust loop pulls the next `ReadDir` outcome of the
top-of-stack frame.  `scanItems` folds a frame's outcome sequence over the
frame's accumulators (`size`, `children`) and the shared state; `scanEntry`
is the `Some(Ok(entry))` arm (scanner.rs lines 261-335), with the recursive
`scanItems` call in its `dir` arm playing the push of a new frame and the
code after that call the later pop/finalization of that frame (lines
340-391). -/

mutual
/-- One `Some(Ok(entry))` iteration of the scan loop (scanner.rs lines
261-335), acting on the current frame's accumulated `size` and `children`
and on the shared state. -/
def scanEntry (opts : ScanOptions) (dirPath name : String) (obj : FsObj)
    (size : Nat) (children : List FsNode) (st : ScanState) :
    Nat × List FsNode × ScanState :=
  match obj with
  | .metaErr _ =>
      -- lines 264-270: metadata read failure, count a skip and continue
      (size, children, st.incSkipped)
  | .symlink =>
      -- lines 272-276: skip symlinks entirely
      (size, children, st)
  | .file s =>
      -- lines 278-307
      let cpath := joinPath dirPath name
      let st := st.file_scanned s cpath
      let size' := satAdd64 size s
      if opts.min_node_bytes ≤ s ∧ st.returned_nodes < opts.max_total_nodes
      then
        let st := { st with returned_nodes := st.returned_nodes + 1 }
        (size',
         maybe_keep_child children
           (.mk (display_name cpath) cpath .File s []
              (file_extension_lower cpath) none)
           opts.max_children_per_dir,
         st)
      else if opts.min_node_bytes ≤ s then (size', children, st.setHitLimit)
      else (size', children, st)
  | .dirErr _ =>
      -- lines 310-331, Err arm of read_dir: dir_scanned ran first, skip
      let cpath := joinPath dirPath name
      let st := st.dir_scanned cpath
      (size, children, st.incSkipped)
  | .dir sub =>
      -- lines 310-331 push, then lines 340-391 when the frame is popped
      let cpath := joinPath dirPath name
      let st := st.dir_scanned cpath
      let res := scanItems opts cpath sub 0 [] st
      let dsize := res.1
      let node : FsNode :=
        .mk (display_name cpath) cpath .Directory dsize
          (finalizeChildren res.2.1 opts.max_children_per_dir) none none
      let st := res.2.2
      -- lines 363-369: retention decision for a non-root frame
      let keep : Prop := opts.min_node_bytes ≤ dsize ∧
        st.returned_nodes < opts.max_total_nodes
      let st :=
        if opts.min_node_bytes ≤ dsize ∧
           opts.max_total_nodes ≤ st.returned_nodes
        then st.setHitLimit else st
      -- lines 371-376: fold size into the parent, insert if retained
      let size' := satAdd64 size dsize
      if keep then
        (size',
         maybe_keep_child children node opts.max_children_per_dir,
         { st with returned_nodes := st.returned_nodes + 1 })
      else (size', children, st)
  | .other =>
      -- line 334: non-file, non-dir: ignore
      (size, children, st)

/-- Drain one frame's `ReadDir` outcome sequence (the loop of scanner.rs
lines 254-394 restricted to the top-of-stack frame), returning the frame's
accumulated exact size, its provisional children buffer, and the state. -/
def scanItems (opts : ScanOptions) (dirPath : String) (items : Items)
    (size : Nat) (children : List FsNode) (st : ScanState) :
    Nat × List FsNode × ScanState :=
  match items with
  | .nil => (size, children, st)
  | .err rest =>
      -- lines 336-339: error reading a single entry
      scanItems opts dirPath rest size children st.incSkipped
  | .entry name obj rest =>
      let res := scanEntry opts dirPath name obj size children st
      scanItems opts dirPath rest res.1 res.2.1 res.2.2
end

/-- The root's truncation diagnostic (scanner.rs lines 380-383). -/
def truncationMsg (max_total_nodes : Nat) : String :=
  "Result truncated to <= " ++ toString max_total_nodes ++
    " nodes for stability. Increase the minimum size filter to reduce output."

/-- The root's skipped-entries diagnostic (scanner.rs lines 385-388). -/
def skippedMsg (skipped : Nat) : String :=
  "Skipped " ++ toString skipped ++ " entries due to permission/errors."

/-- `scan_pruned_tree` (scanner.rs lines 182-397): classify the root via
its metadata, handle non-directory roots as leaves, and otherwise run the
stack walk (initial `returned_nodes = 1`, fresh stats, `dir_scanned` on
the root before the loop) and finalize the root node, attaching at most
one diagnostic.  Returns the result together with the final reporter and
the unconsumed time schedule. -/
def scan_pruned_tree (root : String) (obj : FsObj) (opts : ScanOptions)
    (rep : ProgressReporter) (times : List Nat) :
    Except String FsNode × ProgressReporter × List Nat :=
  match obj with
  | .metaErr e =>
      (.error ("Failed to read metadata for " ++ root ++ ": " ++ e),
       rep, times)
  | .symlink =>
      (.ok (.mk (display_name root) root .Symlink 0 []
          (file_extension_lower root) none), rep, times)
  | .file s =>
      let st := ScanState.file_scanned ⟨1, ⟨0, false⟩, rep, times⟩ s root
      (.ok (.mk (display_name root) root .File s []
          (file_extension_lower root) none), st.rep, st.times)
  | .other =>
      (.ok (.mk (display_name root) root .Other 0 []
          (file_extension_lower root) none), rep, times)
  | .dirErr e =>
      (.error ("Failed to read directory " ++ root ++ ": " ++ e),
       rep, times)
  | .dir items =>
      let st0 : ScanState := ⟨1, ⟨0, false⟩, rep, times⟩
      let st1 := st0.dir_scanned root
      let res := scanItems opts root items 0 [] st1
      let st := res.2.2
      let err : Option String :=
        if st.stats.hit_node_limit then
          some (truncationMsg opts.max_total_nodes)
        else if 0 < st.stats.skipped_entries then
          some (skippedMsg st.stats.skipped_entries)
        else none
      (.ok (.mk (display_name root) root .Directory res.1
          (finalizeChildren res.2.1 opts.max_children_per_dir) none err),
       st.rep, st.times)

/-! ## The orchestrator (`scan_directory`, scanner.rs lines 399-424) -/

/-- `DEFAULT_MIN_NODE_BYTES` (scanner.rs line 18): 1 MiB. -/
def DEFAULT_MIN_NODE_BYTES : Nat := 1 * 1024 * 1024

/-- `DEFAULT_MAX_CHILDREN_PER_DIR` (scanner.rs line 19). -/
def DEFAULT_MAX_CHILDREN_PER_DIR : Nat := 1000

/-- `DEFAULT_MAX_TOTAL_NODES` (scanner.rs line 20). -/
def DEFAULT_MAX_TOTAL_NODES : Nat := 10000

/-- The path-not-found error of `scan_directory` (scanner.rs line 406). -/
def pathNotFoundMsg (path : String) : String :=
  "Path does not exist: " ++ path

/-- `scan_directory` (scanner.rs lines 399-424): check existence of the
root, create the reporter, force an event before the walk, run
`scan_pruned_tree` with defaulted options, and force an event after a
successful walk.  `rootExists` is what `root.exists()` returns, `t0`/`t1`
the instants of the two bracketing forced emissions, `times` the schedule
for in-walk emission attempts.  The second component is the trace of
emitted progress events. -/
def scan_directory (rootExists : Bool) (path : String) (obj : FsObj)
    (min_node_bytes : Option Nat) (t0 t1 : Nat) (times : List Nat) :
    Except String FsNode × List ScanProgressPayload :=
  if rootExists then
    let progress := (ProgressReporter.new t0).emit_force t0 (some path)
    let opts : ScanOptions :=
      ⟨min_node_bytes.getD DEFAULT_MIN_NODE_BYTES,
       DEFAULT_MAX_CHILDREN_PER_DIR, DEFAULT_MAX_TOTAL_NODES⟩
    match scan_pruned_tree path obj opts progress times with
    | (.error e, rep, _) => (.error e, rep.events)
    | (.ok node, rep, _) => (.ok node, (rep.emit_force t1 (some path)).events)
  else (.error (pathNotFoundMsg path), [])

/-! ## Basic lemmas about the node model -/

@[simp] theorem FsNode.name_mk (n p k s cs e er) :
    (FsNode.mk n p k s cs e er).name = n := rfl

@[simp] theorem FsNode.path_mk (n p k s cs e er) :
    (FsNode.mk n p k s cs e er).path = p := rfl

@[simp] theorem FsNode.kind_mk (n p k s cs e er) :
    (FsNode.mk n p k s cs e er).kind = k := rfl

@[simp] theorem FsNode.size_mk (n p k s cs e er) :
    (FsNode.mk n p k s cs e er).size = s := rfl

@[simp] theorem FsNode.children_mk (n p k s cs e er) :
    (FsNode.mk n p k s cs e er).children = cs := rfl

@[simp] theorem FsNode.extension_mk (n p k s cs e er) :
    (FsNode.mk n p k s cs e er).extension = e := rfl

@[simp] theorem FsNode.error_mk (n p k s cs e er) :
    (FsNode.mk n p k s cs e er).error = er := rfl

@[simp] theorem countList_nil : countList [] = 0 := rfl

@[simp] theorem countList_cons (n ns) :
    countList (n :: ns) = countNodes n + countList ns := rfl

theorem countList_append (a b : List FsNode) :
    countList (a ++ b) = countList a + countList b := by
  induction a with
  | nil => simp
  | cons x xs ih =>
      simp only [List.cons_append, countList_cons, ih]
      omega

theorem countNodes_pos (n : FsNode) : 1 ≤ countNodes n := by
  cases n; simp [countNodes]

theorem countList_take_le (l : List FsNode) (k : Nat) :
    countList (l.take k) ≤ countList l := by
  induction l generalizing k with
  | nil => simp
  | cons x xs ih =>
      cases k with
      | zero => simp
      | succ k =>
          simp only [List.take_succ_cons, countList_cons]
          have := ih k
          omega

/-! ## Lemmas about the stable descending sort -/

theorem mem_insertDesc {x : FsNode} (y : FsNode) (l : List FsNode) :
    x ∈ insertDesc y l ↔ x = y ∨ x ∈ l := by
  induction l with
  | nil => simp [insertDesc]
  | cons z zs ih =>
      simp only [insertDesc]
      split
      · simp only [List.mem_cons, ih]
        tauto
      · simp only [List.mem_cons]

theorem mem_sortByDesc {x : FsNode} (l : List FsNode) :
    x ∈ sortByDesc l ↔ x ∈ l := by
  induction l with
  | nil => simp [sortByDesc]
  | cons y ys ih => simp [sortByDesc, mem_insertDesc, ih]

theorem countList_insertDesc (x : FsNode) (l : List FsNode) :
    countList (insertDesc x l) = countNodes x + countList l := by
  induction l with
  | nil => simp [insertDesc]
  | cons z zs ih =>
      simp only [insertDesc]
      split
      · simp only [countList_cons, ih]
        omega
      · simp only [countList_cons]

theorem countList_sortByDesc (l : List FsNode) :
    countList (sortByDesc l) = countList l := by
  induction l with
  | nil => rfl
  | cons x xs ih => simp [sortByDesc, countList_insertDesc, ih]

theorem length_insertDesc (x : FsNode) (l : List FsNode) :
    (insertDesc x l).length = l.length + 1 := by
  induction l with
  | nil => rfl
  | cons z zs ih =>
      simp only [insertDesc]
      split
      · simp only [List.length_cons, ih]
      · simp only [List.length_cons]

theorem length_sortByDesc (l : List FsNode) :
    (sortByDesc l).length = l.length := by
  induction l with
  | nil => rfl
  | cons x xs ih => simp [sortByDesc, length_insertDesc, ih]

/-! ## Lemmas about `finalizeChildren` and `maybe_keep_child` -/

theorem mem_finalizeChildren {x : FsNode} {l : List FsNode} {k : Nat}
    (h : x ∈ finalizeChildren l k) : x ∈ l := by
  simp only [finalizeChildren] at h
  split at h
  · exact (mem_sortByDesc l).1 (List.take_subset _ _ h)
  · exact (mem_sortByDesc l).1 h

theorem length_finalizeChildren (l : List FsNode) (k : Nat) :
    (finalizeChildren l k).length ≤ k := by
  simp only [finalizeChildren]
  split
  · simp
  · next h => simpa [length_sortByDesc] using Nat.le_of_not_lt h

theorem countList_finalizeChildren_le (l : List FsNode) (k : Nat) :
    countList (finalizeChildren l k) ≤ countList l := by
  simp only [finalizeChildren]
  split
  · calc countList ((sortByDesc l).take k) ≤ countList (sortByDesc l) :=
          countList_take_le _ _
      _ = countList l := countList_sortByDesc l
  · simp [countList_sortByDesc]

theorem mem_maybe_keep_child {x c : FsNode} {ch : List FsNode} {k : Nat}
    (h : x ∈ maybe_keep_child ch c k) : x ∈ ch ∨ x = c := by
  simp only [maybe_keep_child] at h
  split at h
  · have := (mem_sortByDesc (ch ++ [c])).1 (List.take_subset _ _ h)
    simpa using this
  · simpa using h

theorem countList_maybe_keep_child_le (ch : List FsNode) (c : FsNode)
    (k : Nat) :
    countList (maybe_keep_child ch c k) ≤ countList ch + countNodes c := by
  simp only [maybe_keep_child]
  split
  · calc countList ((sortByDesc (ch ++ [c])).take k)
        ≤ countList (sortByDesc (ch ++ [c])) := countList_take_le _ _
      _ = countList (ch ++ [c]) := countList_sortByDesc _
      _ = countList ch + countNodes c := by simp [countList_append, countNodes]
  · simp [countList_append, countNodes]

/-! ## Component lemmas for the state operations -/

theorem ScanState.returned_file_scanned (st : ScanState) (b : Nat)
    (p : String) : (st.file_scanned b p).returned_nodes = st.returned_nodes := by
  simp only [ScanState.file_scanned, ScanState.popTime]
  split <;> rfl

theorem ScanState.returned_dir_scanned (st : ScanState) (p : String) :
    (st.dir_scanned p).returned_nodes = st.returned_nodes := by
  simp only [ScanState.dir_scanned, ScanState.popTime]
  split <;> rfl

theorem ScanState.returned_incSkipped (st : ScanState) :
    st.incSkipped.returned_nodes = st.returned_nodes := rfl

theorem ScanState.returned_setHitLimit (st : ScanState) :
    st.setHitLimit.returned_nodes = st.returned_nodes := rfl

theorem ScanState.stats_file_scanned (st : ScanState) (b : Nat)
    (p : String) : (st.file_scanned b p).stats = st.stats := by
  simp only [ScanState.file_scanned, ScanState.popTime]
  split <;> rfl

theorem ScanState.stats_dir_scanned (st : ScanState) (p : String) :
    (st.dir_scanned p).stats = st.stats := by
  simp only [ScanState.dir_scanned, ScanState.popTime]
  split <;> rfl

theorem ProgressReporter.events_maybe_emit (r : ProgressReporter)
    (now : Nat) (p : Option String) :
    ∃ l, (r.maybe_emit now p).events = r.events ++ l := by
  simp only [ProgressReporter.maybe_emit, ProgressReporter.emit_force,
    ProgressReporter.emit]
  split
  · exact ⟨_, rfl⟩
  · exact ⟨[], by simp⟩

theorem ScanState.events_file_scanned (st : ScanState) (b : Nat)
    (p : String) :
    ∃ l, (st.file_scanned b p).rep.events = st.rep.events ++ l := by
  simp only [ScanState.file_scanned, ScanState.popTime]
  split
  · simpa using ProgressReporter.events_maybe_emit _ _ (some p)
  · exact ⟨[], by simp⟩

theorem ScanState.events_dir_scanned (st : ScanState) (p : String) :
    ∃ l, (st.dir_scanned p).rep.events = st.rep.events ++ l := by
  simp only [ScanState.dir_scanned, ScanState.popTime]
  split
  · simpa using ProgressReporter.events_maybe_emit _ _ (some p)
  · exact ⟨[], by simp⟩

theorem ScanState.events_incSkipped (st : ScanState) :
    st.incSkipped.rep.events = st.rep.events := rfl

theorem ScanState.events_setHitLimit (st : ScanState) :
    st.setHitLimit.rep.events = st.rep.events := rfl

/-! ## Exactness of the accumulated sizes

The frame accumulator of the walk equals the true reachable size of the
items folded so far, saturated at `u64::MAX`; nothing that the walk prunes
from the children lists is missing from it. -/

mutual
theorem scanEntry_size (opts : ScanOptions) (d n : String) (obj : FsObj)
    (sz : Nat) (ch : List FsNode) (st : ScanState) (h : sz ≤ U64_MAX) :
    (scanEntry opts d n obj sz ch st).1 =
      min (sz + objTrueSize obj) U64_MAX := by
  cases obj with
  | metaErr m =>
      simp only [scanEntry, objTrueSize]
      omega
  | symlink =>
      simp only [scanEntry, objTrueSize]
      omega
  | file s =>
      simp only [scanEntry, objTrueSize]
      split
      · simp [satAdd64]
      · split
        · simp [satAdd64]
        · simp [satAdd64]
  | other =>
      simp only [scanEntry, objTrueSize]
      omega
  | dirErr m =>
      simp only [scanEntry, objTrueSize]
      omega
  | dir sub =>
      have hd := scanItems_size opts (joinPath d n) sub 0 []
        ((st.dir_scanned (joinPath d n))) (Nat.zero_le _)
      simp only [scanEntry, objTrueSize]
      split
      · rw [satAdd64, hd]
        omega
      · rw [satAdd64, hd]
        omega

theorem scanItems_size (opts : ScanOptions) (d : String) (items : Items)
    (sz : Nat) (ch : List FsNode) (st : ScanState) (h : sz ≤ U64_MAX) :
    (scanItems opts d items sz ch st).1 =
      min (sz + itemsTrueSize items) U64_MAX := by
  cases items with
  | nil =>
      simp only [scanItems, itemsTrueSize]
      omega
  | err rest =>
      simp only [scanItems, itemsTrueSize]
      exact scanItems_size opts d rest sz ch st.incSkipped h
  | entry name obj rest =>
      simp only [scanItems, itemsTrueSize]
      have he := scanEntry_size opts d name obj sz ch st h
      have h2 : (scanEntry opts d name obj sz ch st).1 ≤ U64_MAX := by
        rw [he]; omega
      rw [scanItems_size opts d rest _ _ _ h2, he]
      omega
end

/-! ## Generic preservation of node predicates by the walk

Every node the walk ever inserts in a children buffer is either an admitted
file leaf (size at least the retention floor) or a finalized directory node
(size at least the floor, children truncated to the per-directory cap and
themselves produced by the walk).  Any predicate closed under those two
node forms therefore holds for everything in any buffer. -/

theorem returned_ite_setHit (c : Prop) [Decidable c] (st : ScanState) :
    (if c then st.setHitLimit else st).returned_nodes = st.returned_nodes := by
  split <;> rfl

theorem events_ite_setHit (c : Prop) [Decidable c] (st : ScanState) :
    (if c then st.setHitLimit else st).rep.events = st.rep.events := by
  split <;> rfl

theorem inTree_elim {m n : FsNode} (h : InTree m n) :
    m = n ∨ ∃ c ∈ n.children, InTree m c := by
  cases h with
  | refl => exact Or.inl rfl
  | child hc ht => exact Or.inr ⟨_, hc, ht⟩

theorem inTree_leaf {m : FsNode} {nm p k s e er}
    (h : InTree m (.mk nm p k s [] e er)) : m = .mk nm p k s [] e er := by
  rcases inTree_elim h with h | ⟨c, hc, _⟩
  · exact h
  · simp at hc

mutual
theorem scanEntry_pres (P : FsNode → Prop) (opts : ScanOptions)
    (hfile : ∀ nm p s e, opts.min_node_bytes ≤ s →
        P (.mk nm p .File s [] e none))
    (hdir : ∀ nm p s kids, opts.min_node_bytes ≤ s →
        kids.length ≤ opts.max_children_per_dir →
        (∀ c ∈ kids, P c) → P (.mk nm p .Directory s kids none none))
    (d n : String) (obj : FsObj) (sz : Nat) (ch : List FsNode)
    (st : ScanState) (hch : ∀ c ∈ ch, P c) :
    ∀ c ∈ (scanEntry opts d n obj sz ch st).2.1, P c := by
  cases obj with
  | metaErr m => simpa only [scanEntry] using hch
  | symlink => simpa only [scanEntry] using hch
  | file s =>
      simp only [scanEntry]
      split
      · next hcond =>
          intro c hc
          rcases mem_maybe_keep_child hc with h | h
          · exact hch c h
          · subst h
            exact hfile _ _ _ _ hcond.1
      · split
        · exact hch
        · exact hch
  | other => simpa only [scanEntry] using hch
  | dirErr m => simpa only [scanEntry] using hch
  | dir sub =>
      have hbuf := scanItems_pres P opts hfile hdir (joinPath d n) sub 0 []
        (st.dir_scanned (joinPath d n)) (by simp)
      simp only [scanEntry]
      split
      · next hcond =>
          intro c hc
          rcases mem_maybe_keep_child hc with h | h
          · exact hch c h
          · subst h
            refine hdir _ _ _ _ hcond.1 (length_finalizeChildren _ _) ?_
            intro c hc
            exact hbuf c (mem_finalizeChildren hc)
      · exact hch

theorem scanItems_pres (P : FsNode → Prop) (opts : ScanOptions)
    (hfile : ∀ nm p s e, opts.min_node_bytes ≤ s →
        P (.mk nm p .File s [] e none))
    (hdir : ∀ nm p s kids, opts.min_node_bytes ≤ s →
        kids.length ≤ opts.max_children_per_dir →
        (∀ c ∈ kids, P c) → P (.mk nm p .Directory s kids none none))
    (d : String) (items : Items) (sz : Nat) (ch : List FsNode)
    (st : ScanState) (hch : ∀ c ∈ ch, P c) :
    ∀ c ∈ (scanItems opts d items sz ch st).2.1, P c := by
  cases items with
  | nil => simpa only [scanItems] using hch
  | err rest =>
      simp only [scanItems]
      exact scanItems_pres P opts hfile hdir d rest sz ch st.incSkipped hch
  | entry name obj rest =>
      simp only [scanItems]
      exact scanItems_pres P opts hfile hdir d rest _ _ _
        (scanEntry_pres P opts hfile hdir d name obj sz ch st hch)
end

/-! ## The global node budget

`returned_nodes` never decreases, never exceeds `max_total_nodes` (when it
starts within the budget), and always dominates the growth of the total
node count of the current children buffer: budget units are consumed at
admission time and never refunded, so the tree can only be smaller than
the consumed budget. -/

mutual
theorem scanEntry_count (opts : ScanOptions) (d n : String) (obj : FsObj)
    (sz : Nat) (ch : List FsNode) (st : ScanState)
    (h : st.returned_nodes ≤ opts.max_total_nodes) :
    st.returned_nodes ≤ (scanEntry opts d n obj sz ch st).2.2.returned_nodes ∧
    (scanEntry opts d n obj sz ch st).2.2.returned_nodes ≤
      opts.max_total_nodes ∧
    countList (scanEntry opts d n obj sz ch st).2.1 + st.returned_nodes ≤
      countList ch + (scanEntry opts d n obj sz ch st).2.2.returned_nodes := by
  cases obj with
  | metaErr m =>
      simp only [scanEntry, ScanState.returned_incSkipped]
      omega
  | symlink =>
      simp only [scanEntry]
      omega
  | file s =>
      simp only [scanEntry]
      split
      · next hcond =>
          have hm := countList_maybe_keep_child_le ch
            (.mk (display_name (joinPath d n)) (joinPath d n) .File s []
              (file_extension_lower (joinPath d n)) none)
            opts.max_children_per_dir
          simp only [countNodes, countList_nil] at hm
          simp only [ScanState.returned_file_scanned] at hcond ⊢
          omega
      · split
        · simp only [ScanState.returned_setHitLimit,
            ScanState.returned_file_scanned]
          omega
        · simp only [ScanState.returned_file_scanned]
          omega
  | other =>
      simp only [scanEntry]
      omega
  | dirErr m =>
      simp only [scanEntry, ScanState.returned_incSkipped,
        ScanState.returned_dir_scanned]
      omega
  | dir sub =>
      have h1 := ScanState.returned_dir_scanned st (joinPath d n)
      have ih := scanItems_count opts (joinPath d n) sub 0 []
        (st.dir_scanned (joinPath d n)) (by omega)
      simp only [countList_nil] at ih
      simp only [scanEntry, returned_ite_setHit]
      split
      · next hcond =>
          have hm := countList_maybe_keep_child_le ch
            (.mk (display_name (joinPath d n)) (joinPath d n) .Directory
              (scanItems opts (joinPath d n) sub 0 []
                (st.dir_scanned (joinPath d n))).1
              (finalizeChildren
                (scanItems opts (joinPath d n) sub 0 []
                  (st.dir_scanned (joinPath d n))).2.1
                opts.max_children_per_dir)
              none none)
            opts.max_children_per_dir
          have hf := countList_finalizeChildren_le
            (scanItems opts (joinPath d n) sub 0 []
              (st.dir_scanned (joinPath d n))).2.1 opts.max_children_per_dir
          simp only [countNodes] at hm
          simp only [returned_ite_setHit] at hcond ⊢
          omega
      · dsimp only
        simp only [returned_ite_setHit]
        omega

theorem scanItems_count (opts : ScanOptions) (d : String) (items : Items)
    (sz : Nat) (ch : List FsNode) (st : ScanState)
    (h : st.returned_nodes ≤ opts.max_total_nodes) :
    st.returned_nodes ≤ (scanItems opts d items sz ch st).2.2.returned_nodes ∧
    (scanItems opts d items sz ch st).2.2.returned_nodes ≤
      opts.max_total_nodes ∧
    countList (scanItems opts d items sz ch st).2.1 + st.returned_nodes ≤
      countList ch + (scanItems opts d items sz ch st).2.2.returned_nodes := by
  cases items with
  | nil =>
      simp only [scanItems]
      omega
  | err rest =>
      simp only [scanItems]
      have := scanItems_count opts d rest sz ch st.incSkipped
        (by rw [ScanState.returned_incSkipped]; exact h)
      rw [ScanState.returned_incSkipped] at this
      omega
  | entry name obj rest =>
      simp only [scanItems]
      have h1 := scanEntry_count opts d name obj sz ch st h
      have h2 := scanItems_count opts d rest
        (scanEntry opts d name obj sz ch st).1
        (scanEntry opts d name obj sz ch st).2.1
        (scanEntry opts d name obj sz ch st).2.2 h1.2.1
      omega
end

/-! ## The walk only appends to the emitted event trace -/

mutual
theorem scanEntry_events (opts : ScanOptions) (d n : String) (obj : FsObj)
    (sz : Nat) (ch : List FsNode) (st : ScanState) :
    ∃ l, (scanEntry opts d n obj sz ch st).2.2.rep.events =
      st.rep.events ++ l := by
  cases obj with
  | metaErr m => exact ⟨[], by simp [scanEntry, ScanState.events_incSkipped]⟩
  | symlink => exact ⟨[], by simp [scanEntry]⟩
  | file s =>
      obtain ⟨l1, hl1⟩ := ScanState.events_file_scanned st s (joinPath d n)
      simp only [scanEntry]
      split
      · exact ⟨l1, hl1⟩
      · split
        · exact ⟨l1, hl1⟩
        · exact ⟨l1, hl1⟩
  | other => exact ⟨[], by simp [scanEntry]⟩
  | dirErr m =>
      obtain ⟨l1, hl1⟩ := ScanState.events_dir_scanned st (joinPath d n)
      exact ⟨l1, by simp [scanEntry, ScanState.events_incSkipped, hl1]⟩
  | dir sub =>
      obtain ⟨l1, hl1⟩ := ScanState.events_dir_scanned st (joinPath d n)
      obtain ⟨l2, hl2⟩ := scanItems_events opts (joinPath d n) sub 0 []
        (st.dir_scanned (joinPath d n))
      simp only [scanEntry]
      split
      · refine ⟨l1 ++ l2, ?_⟩
        dsimp only
        rw [events_ite_setHit, hl2, hl1, List.append_assoc]
      · refine ⟨l1 ++ l2, ?_⟩
        dsimp only
        rw [events_ite_setHit, hl2, hl1, List.append_assoc]

theorem scanItems_events (opts : ScanOptions) (d : String) (items : Items)
    (sz : Nat) (ch : List FsNode) (st : ScanState) :
    ∃ l, (scanItems opts d items sz ch st).2.2.rep.events =
      st.rep.events ++ l := by
  cases items with
  | nil => exact ⟨[], by simp [scanItems]⟩
  | err rest =>
      obtain ⟨l, hl⟩ := scanItems_events opts d rest sz ch st.incSkipped
      exact ⟨l, by simpa [scanItems, ScanState.events_incSkipped] using hl⟩
  | entry name obj rest =>
      obtain ⟨l1, hl1⟩ := scanEntry_events opts d name obj sz ch st
      obtain ⟨l2, hl2⟩ := scanItems_events opts d rest
        (scanEntry opts d name obj sz ch st).1
        (scanEntry opts d name obj sz ch st).2.1
        (scanEntry opts d name obj sz ch st).2.2
      refine ⟨l1 ++ l2, ?_⟩
      simp only [scanItems]
      rw [hl2, hl1, List.append_assoc]
end

/-! ## Correspondence between returned nodes and on-disk objects -/

/-- `entryMem nm o items`: the `ReadDir` outcome sequence `items` contains
a successful entry with file name `nm` whose path holds the object `o`. -/
def entryMem (name : String) (obj : FsObj) : Items → Prop
  | .nil => False
  | .err rest => entryMem name obj rest
  | .entry n o rest => (n = name ∧ o = obj) ∨ entryMem name obj rest

mutual
/-- `SizeMatches c o`: the returned node `c` faithfully describes the
on-disk object `o`: a file node carries the file's exact length, and a
directory node carries the saturated true total size of everything
reachable under the directory — however many of its descendants were
pruned from `children` — while each retained child in turn faithfully
describes some actual entry of that directory (`ChildMatches`). -/
inductive SizeMatches : FsNode → FsObj → Prop where
  | file {c : FsNode} {s : Nat} (hk : c.kind = .File) (hs : c.size = s)
      (hch : c.children = []) : SizeMatches c (.file s)
  | dir {c : FsNode} {items : Items} (hk : c.kind = .Directory)
      (hs : c.size = min (itemsTrueSize items) U64_MAX)
      (hch : ∀ m ∈ c.children, ChildMatches items m) :
      SizeMatches c (.dir items)

/-- `ChildMatches items m`: the node `m` faithfully describes (via
`SizeMatches`) the object of some successful entry of `items`. -/
inductive ChildMatches : Items → FsNode → Prop where
  | intro (nm : String) (o : FsObj) {items : Items} {m : FsNode}
      (hm : entryMem nm o items) (hsm : SizeMatches m o) :
      ChildMatches items m
end

mutual
theorem scanEntry_matches (S : FsNode → Prop) (opts : ScanOptions)
    (d n : String) (obj : FsObj) (sz : Nat) (ch : List FsNode)
    (st : ScanState) (hch : ∀ c ∈ ch, S c)
    (hnew : ∀ c, SizeMatches c obj → S c) :
    ∀ c ∈ (scanEntry opts d n obj sz ch st).2.1, S c := by
  cases obj with
  | metaErr m => simpa only [scanEntry] using hch
  | symlink => simpa only [scanEntry] using hch
  | file s =>
      simp only [scanEntry]
      split
      · intro c hc
        rcases mem_maybe_keep_child hc with h | h
        · exact hch c h
        · subst h
          exact hnew _ (.file rfl rfl rfl)
      · split
        · exact hch
        · exact hch
  | other => simpa only [scanEntry] using hch
  | dirErr m => simpa only [scanEntry] using hch
  | dir sub =>
      have hbuf := scanItems_matches (fun m => ChildMatches sub m) opts
        (joinPath d n) sub 0 [] (st.dir_scanned (joinPath d n))
        (by simp) (fun nm o c hm hsm => ⟨nm, o, hm, hsm⟩)
      have hsz := scanItems_size opts (joinPath d n) sub 0 []
        (st.dir_scanned (joinPath d n)) (Nat.zero_le _)
      simp only [scanEntry]
      split
      · intro c hc
        rcases mem_maybe_keep_child hc with h | h
        · exact hch c h
        · subst h
          refine hnew _ (.dir rfl ?_ ?_)
          · simpa using hsz
          · intro m hm
            exact hbuf m (mem_finalizeChildren hm)
      · exact hch

theorem scanItems_matches (S : FsNode → Prop) (opts : ScanOptions)
    (d : String) (items : Items) (sz : Nat) (ch : List FsNode)
    (st : ScanState) (hch : ∀ c ∈ ch, S c)
    (hnew : ∀ nm o c, entryMem nm o items → SizeMatches c o → S c) :
    ∀ c ∈ (scanItems opts d items sz ch st).2.1, S c := by
  cases items with
  | nil => simpa only [scanItems] using hch
  | err rest =>
      simp only [scanItems]
      exact scanItems_matches S opts d rest sz ch st.incSkipped hch
        (fun nm o c hm hsm => hnew nm o c hm hsm)
  | entry name obj rest =>
      simp only [scanItems]
      exact scanItems_matches S opts d rest _ _ _
        (scanEntry_matches S opts d name obj sz ch st hch
          (fun c hsm => hnew name obj c (Or.inl ⟨rfl, rfl⟩) hsm))
        (fun nm o c hm hsm => hnew nm o c (Or.inr hm) hsm)
end

/-! ## Unfoldings of `scan_pruned_tree` on a directory root -/

/-- The state in which the walk of a directory root starts:
`returned_nodes = 1` (the root), fresh stats, and `dir_scanned` already
applied to the root (scanner.rs lines 249-252). -/
def rootScanState (rep : ProgressReporter) (times : List Nat)
    (root : String) : ScanState :=
  ScanState.dir_scanned ⟨1, ⟨0, false⟩, rep, times⟩ root

/-- The walk of a directory root's entries, as `scan_pruned_tree` runs it:
frame accumulators start at `0` and `[]`. -/
def rootScan (root : String) (items : Items) (opts : ScanOptions)
    (rep : ProgressReporter) (times : List Nat) :
    Nat × List FsNode × ScanState :=
  scanItems opts root items 0 [] (rootScanState rep times root)

theorem scan_pruned_tree_dir (root : String) (items : Items)
    (opts : ScanOptions) (rep : ProgressReporter) (times : List Nat) :
    scan_pruned_tree root (.dir items) opts rep times =
      (.ok (.mk (display_name root) root .Directory
          (rootScan root items opts rep times).1
          (finalizeChildren (rootScan root items opts rep times).2.1
            opts.max_children_per_dir)
          none
          (if (rootScan root items opts rep times).2.2.stats.hit_node_limit
           then some (truncationMsg opts.max_total_nodes)
           else if 0 <
              (rootScan root items opts rep times).2.2.stats.skipped_entries
           then some (skippedMsg
              (rootScan root items opts rep times).2.2.stats.skipped_entries)
           else none)),
       (rootScan root items opts rep times).2.2.rep,
       (rootScan root items opts rep times).2.2.times) := rfl

theorem returned_rootScanState (rep : ProgressReporter) (times : List Nat)
    (root : String) : (rootScanState rep times root).returned_nodes = 1 := by
  unfold rootScanState
  rw [ScanState.returned_dir_scanned]

theorem scan_pruned_tree_events (root : String) (obj : FsObj)
    (opts : ScanOptions) (rep : ProgressReporter) (times : List Nat) :
    ∃ l, (scan_pruned_tree root obj opts rep times).2.1.events =
      rep.events ++ l := by
  cases obj with
  | metaErr e => exact ⟨[], by simp [scan_pruned_tree]⟩
  | symlink => exact ⟨[], by simp [scan_pruned_tree]⟩
  | file s =>
      have := ScanState.events_file_scanned ⟨1, ⟨0, false⟩, rep, times⟩ s root
      simpa [scan_pruned_tree] using this
  | other => exact ⟨[], by simp [scan_pruned_tree]⟩
  | dirErr e => exact ⟨[], by simp [scan_pruned_tree]⟩
  | dir items =>
      obtain ⟨l1, hl1⟩ :=
        ScanState.events_dir_scanned ⟨1, ⟨0, false⟩, rep, times⟩ root
      obtain ⟨l2, hl2⟩ := scanItems_events opts root items 0 []
        (ScanState.dir_scanned ⟨1, ⟨0, false⟩, rep, times⟩ root)
      refine ⟨l1 ++ l2, ?_⟩
      rw [scan_pruned_tree_dir]
      show (rootScan root items opts rep times).2.2.rep.events = _
      unfold rootScan rootScanState
      rw [hl2, hl1, List.append_assoc]

/-- Walk errors start with an `F`, the path-not-found error with a `P`:
the metadata error of the root is never the path-not-found error. -/
theorem metaMsg_ne_pathNotFound (root e p : String) :
    "Failed to read metadata for " ++ root ++ ": " ++ e ≠
      pathNotFoundMsg p := by
  intro h
  have hd := congrArg (fun s => s.data.head?) h
  simp [pathNotFoundMsg, String.data_append] at hd

/-- The read-dir error of the root is never the path-not-found error. -/
theorem dirMsg_ne_pathNotFound (root e p : String) :
    "Failed to read directory " ++ root ++ ": " ++ e ≠
      pathNotFoundMsg p := by
  intro h
  have hd := congrArg (fun s => s.data.head?) h
  simp [pathNotFoundMsg, String.data_append] at hd

/-! ## The claims -/

/-- C1, as stated, is false on the code: directory sizes are accumulated
with `u64::saturating_add`, so for a root directory holding two files of
`u64::MAX` bytes each the recorded size is `u64::MAX` and not the sum
`2 * u64::MAX` of the logical byte lengths of the reachable files. -/
theorem C1_counterexample :
    (scan_pruned_tree "/r"
        (.dir (.entry "a" (.file U64_MAX)
          (.entry "b" (.file U64_MAX) .nil)))
        ⟨1, 1000, 10000⟩ (.new 0) []).1 =
      .ok (.mk "r" "/r" .Directory U64_MAX
        [.mk "a" "/r/a" .File U64_MAX [] none none,
         .mk "b" "/r/b" .File U64_MAX [] none none] none none) ∧
    itemsTrueSize (.entry "a" (.file U64_MAX)
        (.entry "b" (.file U64_MAX) .nil)) = U64_MAX + U64_MAX ∧
    U64_MAX ≠ U64_MAX + U64_MAX := by
  refine ⟨rfl, rfl, ?_⟩
  decide

/-- C1 (amended): for every completed directory scan, every directory node
of the returned tree records the `u64`-saturated true total of the logical
byte lengths of all non-symlink files the traversal can reach under it —
so the recorded size equals the exact sum whenever that sum fits in `u64`
— independent of how many descendants were pruned from the children
lists; every retained file node likewise records its file's exact length
(`SizeMatches`). -/
theorem C1_dir_sizes_saturated (root : String) (items : Items)
    (opts : ScanOptions) (rep : ProgressReporter) (times : List Nat)
    (node : FsNode)
    (heq : (scan_pruned_tree root (.dir items) opts rep times).1 =
      .ok node) :
    SizeMatches node (.dir items) := by
  rw [scan_pruned_tree_dir] at heq
  dsimp only at heq
  injection heq with heq
  subst heq
  refine .dir rfl ?_ ?_
  · show (rootScan root items opts rep times).1 = _
    unfold rootScan
    rw [scanItems_size opts root items 0 [] (rootScanState rep times root)
      (Nat.zero_le _), Nat.zero_add]
  · intro m hm
    refine scanItems_matches (fun m => ChildMatches items m) opts root items
      0 [] (rootScanState rep times root) (by simp)
      (fun nm o c hmm hsm => ⟨nm, o, hmm, hsm⟩) m ?_
    exact mem_finalizeChildren (by simpa using hm)

/-- Witness for C1 (amended) at a concrete one-file directory. -/
theorem C1_witness :
    SizeMatches
      (.mk "r" "/r" .Directory 5 [.mk "a" "/r/a" .File 5 [] none none]
        none none)
      (.dir (.entry "a" (.file 5) .nil)) :=
  C1_dir_sizes_saturated "/r" (.entry "a" (.file 5) .nil) ⟨1, 10, 10⟩
    (.new 0) []
    (.mk "r" "/r" .Directory 5 [.mk "a" "/r/a" .File 5 [] none none]
      none none) rfl

/-- C2: for every filesystem input and every scan that completes (with a
positive node budget, as the deployed configuration's 10000 is), the
returned tree holds at most `max_total_nodes` nodes counting the root, and
no node's children list holds more than `max_children_per_dir` entries. -/
theorem C2_bounded_output (root : String) (obj : FsObj)
    (opts : ScanOptions) (rep : ProgressReporter) (times : List Nat)
    (node : FsNode) (hmax : 1 ≤ opts.max_total_nodes)
    (heq : (scan_pruned_tree root obj opts rep times).1 = .ok node) :
    countNodes node ≤ opts.max_total_nodes ∧
    ∀ m, InTree m node → m.children.length ≤ opts.max_children_per_dir := by
  cases obj with
  | metaErr e => exact Except.noConfusion heq
  | dirErr e => exact Except.noConfusion heq
  | symlink =>
      injection heq with heq
      subst heq
      refine ⟨by simpa [countNodes] using hmax, ?_⟩
      intro m hm
      rw [inTree_leaf hm]
      simp
  | file s =>
      simp only [scan_pruned_tree] at heq
      injection heq with heq
      subst heq
      refine ⟨by simpa [countNodes] using hmax, ?_⟩
      intro m hm
      rw [inTree_leaf hm]
      simp
  | other =>
      injection heq with heq
      subst heq
      refine ⟨by simpa [countNodes] using hmax, ?_⟩
      intro m hm
      rw [inTree_leaf hm]
      simp
  | dir items =>
      rw [scan_pruned_tree_dir] at heq
      dsimp only at heq
      injection heq with heq
      subst heq
      have hcnt := scanItems_count opts root items 0 []
        (rootScanState rep times root)
        (by rw [returned_rootScanState]; exact hmax)
      rw [returned_rootScanState] at hcnt
      simp only [countList_nil] at hcnt
      constructor
      · have hf := countList_finalizeChildren_le
          (rootScan root items opts rep times).2.1 opts.max_children_per_dir
        simp only [countNodes]
        unfold rootScan rootScanState at *
        omega
      · intro m hm
        rcases inTree_elim hm with h | ⟨c, hc, hmc⟩
        · subst h
          simpa using length_finalizeChildren
            (rootScan root items opts rep times).2.1 opts.max_children_per_dir
        · have hc' := mem_finalizeChildren (by simpa using hc)
          refine scanItems_pres
            (fun nd => ∀ m, InTree m nd →
              m.children.length ≤ opts.max_children_per_dir) opts
            ?_ ?_ root items 0 [] (rootScanState rep times root)
            (by simp) c ?_ m hmc
          · intro nm p s e hs m hm
            rw [inTree_leaf hm]
            simp
          · intro nm p s kids hs hlen hks m hm
            rcases inTree_elim hm with h | ⟨c2, hc2, hmc2⟩
            · subst h
              simpa using hlen
            · exact hks c2 (by simpa using hc2) m hmc2
          · show c ∈ (rootScan root items opts rep times).2.1
            exact hc'

/-- Witness for C2 at a concrete one-file directory scan. -/
theorem C2_witness :
    countNodes (.mk "r" "/r" .Directory 5
        [.mk "a" "/r/a" .File 5 [] none none] none none) ≤ 10 ∧
    ∀ m, InTree m (.mk "r" "/r" .Directory 5
        [.mk "a" "/r/a" .File 5 [] none none] none none) →
      m.children.length ≤ 10 :=
  C2_bounded_output "/r" (.dir (.entry "a" (.file 5) .nil)) ⟨1, 10, 10⟩
    (.new 0) []
    (.mk "r" "/r" .Directory 5 [.mk "a" "/r/a" .File 5 [] none none]
      none none) (by decide) rfl

/-- C3: in every completed directory scan no File node below the retention
floor `min_node_bytes` occurs anywhere in the returned tree (every File
node of the tree sits in some children list, and the root is a Directory
node), and the root node is returned even when its size is below the
floor — in particular the scan of a directory root always succeeds with a
Directory node at the root path, with no hypothesis on its size, and a
file root is returned as its File leaf whatever its size. -/
theorem C3_retention (root : String) (items : Items) (opts : ScanOptions)
    (rep : ProgressReporter) (times : List Nat) (node : FsNode)
    (heq : (scan_pruned_tree root (.dir items) opts rep times).1 =
      .ok node) :
    node.kind = .Directory ∧ node.path = root ∧
    (∀ m, InTree m node → m.kind = .File →
      opts.min_node_bytes ≤ m.size) ∧
    (∀ (s : Nat) (rep2 : ProgressReporter) (times2 : List Nat),
      (scan_pruned_tree root (.file s) opts rep2 times2).1 =
        .ok (.mk (display_name root) root .File s []
          (file_extension_lower root) none)) := by
  rw [scan_pruned_tree_dir] at heq
  dsimp only at heq
  injection heq with heq
  subst heq
  refine ⟨rfl, rfl, ?_, ?_⟩
  · intro m hm
    rcases inTree_elim hm with h | ⟨c, hc, hmc⟩
    · subst h
      intro hk
      exact absurd hk (by simp)
    · have hc' := mem_finalizeChildren (by simpa using hc)
      refine scanItems_pres
        (fun nd => ∀ m, InTree m nd → m.kind = .File →
          opts.min_node_bytes ≤ m.size) opts ?_ ?_ root items 0 []
        (rootScanState rep times root) (by simp) c ?_ m hmc
      · intro nm p s e hs m hm _
        rw [inTree_leaf hm]
        simpa using hs
      · intro nm p s kids hs hlen hks m hm
        rcases inTree_elim hm with h | ⟨c2, hc2, hmc2⟩
        · subst h
          intro hk
          exact absurd hk (by simp)
        · exact hks c2 (by simpa using hc2) m hmc2
      · show c ∈ (rootScan root items opts rep times).2.1
        exact hc'
  · intro s rep2 times2
    simp only [scan_pruned_tree]

/-- Witness for C3 at a concrete directory whose only file is below the
floor (the file is pruned, the small root is still returned). -/
theorem C3_witness :
    (.mk "r" "/r" .Directory 5 [] none none : FsNode).kind = .Directory ∧
    (.mk "r" "/r" .Directory 5 [] none none : FsNode).path = "/r" ∧
    (∀ m, InTree m (.mk "r" "/r" .Directory 5 [] none none) →
      m.kind = .File → 1000000 ≤ m.size) ∧
    (∀ (s : Nat) (rep2 : ProgressReporter) (times2 : List Nat),
      (scan_pruned_tree "/r" (.file s) ⟨1000000, 10, 10⟩ rep2 times2).1 =
        .ok (.mk "r" "/r" .File s [] none none)) :=
  C3_retention "/r" (.entry "a" (.file 5) .nil) ⟨1000000, 10, 10⟩
    (.new 0) [] (.mk "r" "/r" .Directory 5 [] none none) rfl

/-- C4: symlinks are never traversed: a symlink scan root yields a Symlink
leaf of size 0 with no children (and nothing emitted or counted for it); a
symlink directory entry is skipped entirely, changing neither the frame's
accumulated size, nor its children buffer, nor any component of the scan
state (progress counters included); and every Symlink node of any
completed scan's tree is a leaf of size 0. -/
theorem C4_symlinks (root d n : String) (opts : ScanOptions)
    (rep : ProgressReporter) (times : List Nat) (rest : Items) (sz : Nat)
    (ch : List FsNode) (st : ScanState) :
    (scan_pruned_tree root .symlink opts rep times =
      (.ok (.mk (display_name root) root .Symlink 0 []
        (file_extension_lower root) none), rep, times)) ∧
    (scanItems opts d (.entry n .symlink rest) sz ch st =
      scanItems opts d rest sz ch st) ∧
    (∀ (obj : FsObj) (node : FsNode),
      (scan_pruned_tree root obj opts rep times).1 = .ok node →
      ∀ m, InTree m node → m.kind = .Symlink →
        m.size = 0 ∧ m.children = []) := by
  refine ⟨rfl, rfl, ?_⟩
  intro obj node heq m hm hk
  cases obj with
  | metaErr e => exact Except.noConfusion heq
  | dirErr e => exact Except.noConfusion heq
  | symlink =>
      injection heq with heq
      subst heq
      rw [inTree_leaf hm]
      exact ⟨rfl, rfl⟩
  | file s =>
      simp only [scan_pruned_tree] at heq
      injection heq with heq
      subst heq
      rw [inTree_leaf hm] at hk
      exact absurd hk (by simp)
  | other =>
      injection heq with heq
      subst heq
      rw [inTree_leaf hm] at hk
      exact absurd hk (by simp)
  | dir items =>
      rw [scan_pruned_tree_dir] at heq
      dsimp only at heq
      injection heq with heq
      subst heq
      rcases inTree_elim hm with h | ⟨c, hc, hmc⟩
      · subst h
        exact absurd hk (by simp)
      · have hc' := mem_finalizeChildren (by simpa using hc)
        refine scanItems_pres
          (fun nd => ∀ m, InTree m nd → m.kind = .Symlink →
            m.size = 0 ∧ m.children = []) opts ?_ ?_ root items 0 []
          (rootScanState rep times root) (by simp) c ?_ m hmc hk
        · intro nm p s e hs m hm hk2
          rw [inTree_leaf hm] at hk2
          exact absurd hk2 (by simp)
        · intro nm p s kids hs hlen hks m hm hk2
          rcases inTree_elim hm with h | ⟨c2, hc2, hmc2⟩
          · subst h
            exact absurd hk2 (by simp)
          · exact hks c2 (by simpa using hc2) m hmc2 hk2
        · show c ∈ (rootScan root items opts rep times).2.1
          exact hc'

/-- Witness for C4: a symlink scan root and a skipped symlink entry at
concrete inputs. -/
theorem C4_witness :
    (scan_pruned_tree "/t/ln" .symlink ⟨1, 10, 10⟩ (.new 0) [] =
      (.ok (.mk "ln" "/t/ln" .Symlink 0 [] none none), .new 0, [])) ∧
    (scanItems ⟨1, 10, 10⟩ "/d" (.entry "s" .symlink .nil) 0 []
        ⟨1, ⟨0, false⟩, .new 0, []⟩ =
      scanItems ⟨1, 10, 10⟩ "/d" .nil 0 [] ⟨1, ⟨0, false⟩, .new 0, []⟩) ∧
    ((.mk "ln" "/t/ln" .Symlink 0 [] none none : FsNode).size = 0 ∧
      (.mk "ln" "/t/ln" .Symlink 0 [] none none : FsNode).children = []) := by
  have h := C4_symlinks "/t/ln" "/d" "s" ⟨1, 10, 10⟩ (.new 0) [] .nil 0 []
    ⟨1, ⟨0, false⟩, .new 0, []⟩
  exact ⟨h.1, h.2.1,
    h.2.2 .symlink (.mk "ln" "/t/ln" .Symlink 0 [] none none) rfl _
      (.refl _) rfl⟩

/-- C5: a metadata failure or a read-dir failure at the scan root makes
the whole scan return an error result carrying that failure; below the
root, an entry-read failure, an entry-metadata failure or a directory-open
failure each only bump the skipped-entries counter (the directory-open
case after its `dir_scanned` progress tick), leaving the frame's size and
children untouched; and a directory-root scan always completes with a
result tree, never aborting on such failures. -/
theorem C5_failure_semantics (root d n e : String) (rest : Items)
    (opts : ScanOptions) (rep : ProgressReporter) (times : List Nat)
    (sz : Nat) (ch : List FsNode) (st : ScanState) :
    (scan_pruned_tree root (.metaErr e) opts rep times =
      (.error ("Failed to read metadata for " ++ root ++ ": " ++ e),
        rep, times)) ∧
    (scan_pruned_tree root (.dirErr e) opts rep times =
      (.error ("Failed to read directory " ++ root ++ ": " ++ e),
        rep, times)) ∧
    (scanItems opts d (.err rest) sz ch st =
      scanItems opts d rest sz ch st.incSkipped) ∧
    (scanEntry opts d n (.metaErr e) sz ch st = (sz, ch, st.incSkipped)) ∧
    (scanEntry opts d n (.dirErr e) sz ch st =
      (sz, ch, (st.dir_scanned (joinPath d n)).incSkipped)) ∧
    (∀ items : Items, ∃ nd : FsNode,
      (scan_pruned_tree root (.dir items) opts rep times).1 = .ok nd) := by
  refine ⟨rfl, rfl, rfl, rfl, rfl, ?_⟩
  intro items
  exact ⟨_, by rw [scan_pruned_tree_dir]⟩

/-- C6: in a completed directory scan exactly one optional diagnostic is
attached, on the root: the truncation message when the node budget was
hit, else the skip message when entries were skipped, else no error; no
node inside any children list carries an error string; and scanning an
empty directory returns a Directory root of size 0 with no children and
no error. -/
theorem C6_root_error (root : String) (items : Items) (opts : ScanOptions)
    (rep : ProgressReporter) (times : List Nat) :
    ((scan_pruned_tree root (.dir items) opts rep times).1 =
      .ok (.mk (display_name root) root .Directory
        (rootScan root items opts rep times).1
        (finalizeChildren (rootScan root items opts rep times).2.1
          opts.max_children_per_dir)
        none
        (if (rootScan root items opts rep times).2.2.stats.hit_node_limit
         then some (truncationMsg opts.max_total_nodes)
         else if 0 <
            (rootScan root items opts rep times).2.2.stats.skipped_entries
         then some (skippedMsg
            (rootScan root items opts rep times).2.2.stats.skipped_entries)
         else none))) ∧
    (∀ node : FsNode,
      (scan_pruned_tree root (.dir items) opts rep times).1 = .ok node →
      ∀ c ∈ node.children, ∀ m, InTree m c → m.error = none) ∧
    (∀ (opts2 : ScanOptions) (rep2 : ProgressReporter)
        (times2 : List Nat) (p : String),
      (scan_pruned_tree p (.dir .nil) opts2 rep2 times2).1 =
        .ok (.mk (display_name p) p .Directory 0 [] none none)) := by
  refine ⟨by rw [scan_pruned_tree_dir], ?_, ?_⟩
  · intro node heq c hc m hm
    rw [scan_pruned_tree_dir] at heq
    dsimp only at heq
    injection heq with heq
    subst heq
    have hc' := mem_finalizeChildren (by simpa using hc)
    refine scanItems_pres (fun nd => ∀ m, InTree m nd → m.error = none)
      opts ?_ ?_ root items 0 [] (rootScanState rep times root)
      (by simp) c ?_ m hm
    · intro nm p s e2 hs m hm
      rw [inTree_leaf hm]
      simp
    · intro nm p s kids hs hlen hks m hm
      rcases inTree_elim hm with h | ⟨c2, hc2, hmc2⟩
      · subst h
        simp
      · exact hks c2 (by simpa using hc2) m hmc2
    · show c ∈ (rootScan root items opts rep times).2.1
      exact hc'
  · intro opts2 rep2 times2 p
    rw [scan_pruned_tree_dir]
    dsimp only
    simp only [rootScan, rootScanState, scanItems, finalizeChildren,
      sortByDesc, ScanState.stats_dir_scanned]
    simp

/-- Witness for C6: the error-free file node inside a concrete scanned
tree, and the empty-directory scenario at a concrete path. -/
theorem C6_witness :
    ((.mk "a" "/r/a" .File 5 [] none none : FsNode).error = none) ∧
    ((scan_pruned_tree "/e" (.dir .nil) ⟨1, 10, 10⟩ (.new 0) []).1 =
      .ok (.mk "e" "/e" .Directory 0 [] none none)) := by
  have h := C6_root_error "/r" (.entry "a" (.file 5) .nil) ⟨1, 10, 10⟩
    (.new 0) []
  refine ⟨?_, ?_⟩
  · exact h.2.1
      (.mk "r" "/r" .Directory 5 [.mk "a" "/r/a" .File 5 [] none none]
        none none) rfl
      (.mk "a" "/r/a" .File 5 [] none none) (by simp) _ (.refl _)
  · exact (C6_root_error "/e" .nil ⟨1, 10, 10⟩ (.new 0) []).2.2
      ⟨1, 10, 10⟩ (.new 0) [] "/e"

/-- C7, as stated, is false on the code: a scan whose walk fails (here a
root directory that exists but cannot be opened) emits the forced start
event and then returns the error without the end emission — the event
trace of this completed invocation holds exactly one event, so no event
marks the scan end. -/
theorem C7_counterexample :
    scan_directory true "/r" (.dirErr "denied") none 0 7 [] =
      (.error ("Failed to read directory /r: denied"),
        [⟨0, 0, 0, some "/r"⟩]) ∧
    (scan_directory true "/r" (.dirErr "denied") none 0 7 []).2.length
      < 2 := by
  exact ⟨rfl, by decide⟩

/-- C7 (amended): a non-forced emission attempt emits exactly when at
least 120ms elapsed since the last emission and is a no-op otherwise; a
forced emission always appends an event and resets the throttle clock;
every scan that passes the existence check — whatever the filesystem
holds at the root and whether or not the walk then fails — emits the
forced start event first, so its trace begins with the start snapshot;
and when the walk completes successfully the scan also emits a forced
event at scan end, so a successful scan's trace both starts with the
start snapshot and ends with an event at the root path. -/
theorem C7_throttle_and_bracketing :
    (∀ (r : ProgressReporter) (now : Nat) (p : Option String),
      now - r.last_emit < 120 → r.maybe_emit now p = r) ∧
    (∀ (r : ProgressReporter) (now : Nat) (p : Option String),
      120 ≤ now - r.last_emit → r.maybe_emit now p = r.emit_force now p) ∧
    (∀ (r : ProgressReporter) (now : Nat) (p : Option String),
      (r.emit_force now p).events =
        r.events ++ [⟨r.scanned_files, r.scanned_dirs, r.total_bytes, p⟩] ∧
      (r.emit_force now p).last_emit = now) ∧
    (∀ (path : String) (obj : FsObj) (minb : Option Nat) (t0 t1 : Nat)
        (times : List Nat),
      (scan_directory true path obj minb t0 t1 times).2.head? =
        some ⟨0, 0, 0, some path⟩) ∧
    (∀ (path : String) (obj : FsObj) (minb : Option Nat) (t0 t1 : Nat)
        (times : List Nat) (node : FsNode)
        (evs : List ScanProgressPayload),
      scan_directory true path obj minb t0 t1 times = (.ok node, evs) →
      evs.head? = some ⟨0, 0, 0, some path⟩ ∧ 2 ≤ evs.length ∧
      ∃ ev, evs.getLast? = some ev ∧ ev.current_path = some path) := by
  refine ⟨?_, ?_, ?_, ?_, ?_⟩
  · intro r now p h
    simp only [ProgressReporter.maybe_emit]
    rw [if_neg]
    omega
  · intro r now p h
    simp only [ProgressReporter.maybe_emit]
    rw [if_pos h]
  · intro r now p
    exact ⟨rfl, rfl⟩
  · intro path obj minb t0 t1 times
    unfold scan_directory
    rw [if_pos rfl]
    dsimp only
    rcases hsc : scan_pruned_tree path obj
        ⟨minb.getD DEFAULT_MIN_NODE_BYTES, DEFAULT_MAX_CHILDREN_PER_DIR,
          DEFAULT_MAX_TOTAL_NODES⟩
        ((ProgressReporter.new t0).emit_force t0 (some path)) times
      with ⟨res, rep2, times2⟩
    obtain ⟨l, hl⟩ := scan_pruned_tree_events path obj
      ⟨minb.getD DEFAULT_MIN_NODE_BYTES, DEFAULT_MAX_CHILDREN_PER_DIR,
        DEFAULT_MAX_TOTAL_NODES⟩
      ((ProgressReporter.new t0).emit_force t0 (some path)) times
    rw [hsc] at hl
    dsimp only at hl
    have hstart :
        ((ProgressReporter.new t0).emit_force t0 (some path)).events =
          [⟨0, 0, 0, some path⟩] := rfl
    rw [hstart] at hl
    cases res with
    | error e =>
        dsimp only
        rw [hl]
        simp
    | ok nd =>
        dsimp only
        have hforce : (rep2.emit_force t1 (some path)).events =
            rep2.events ++ [⟨rep2.scanned_files, rep2.scanned_dirs,
              rep2.total_bytes, some path⟩] := rfl
        rw [hforce, hl]
        simp
  · intro path obj minb t0 t1 times node evs heq
    unfold scan_directory at heq
    rw [if_pos rfl] at heq
    dsimp only at heq
    rcases hsc : scan_pruned_tree path obj
        ⟨minb.getD DEFAULT_MIN_NODE_BYTES, DEFAULT_MAX_CHILDREN_PER_DIR,
          DEFAULT_MAX_TOTAL_NODES⟩
        ((ProgressReporter.new t0).emit_force t0 (some path)) times
      with ⟨res, rep2, times2⟩
    rw [hsc] at heq
    cases res with
    | error e => simp at heq
    | ok nd =>
        have hevs : evs = (rep2.emit_force t1 (some path)).events := by
          have := congrArg Prod.snd heq
          simpa using this.symm
        obtain ⟨l, hl⟩ := scan_pruned_tree_events path obj
          ⟨minb.getD DEFAULT_MIN_NODE_BYTES, DEFAULT_MAX_CHILDREN_PER_DIR,
            DEFAULT_MAX_TOTAL_NODES⟩
          ((ProgressReporter.new t0).emit_force t0 (some path)) times
        rw [hsc] at hl
        dsimp only at hl
        have hstart :
            ((ProgressReporter.new t0).emit_force t0 (some path)).events =
              [⟨0, 0, 0, some path⟩] := rfl
        rw [hstart] at hl
        have hforce : (rep2.emit_force t1 (some path)).events =
            rep2.events ++ [⟨rep2.scanned_files, rep2.scanned_dirs,
              rep2.total_bytes, some path⟩] := rfl
        subst hevs
        rw [hforce, hl]
        refine ⟨by simp, ?_, ?_⟩
        · simp
        · exact ⟨_, List.getLast?_concat _, rfl⟩

/-- Witness for C7 (amended): a below-threshold attempt at 5ms is a
no-op, an attempt at 200ms emits, a scan whose root metadata read fails
still emits the forced start event first, and the successful scan of an
empty directory brackets its trace with the start and end events. -/
theorem C7_witness :
    (ProgressReporter.maybe_emit ⟨3, 4, 5, 0, []⟩ 5 (some "/r") =
      ⟨3, 4, 5, 0, []⟩) ∧
    (ProgressReporter.maybe_emit ⟨3, 4, 5, 0, []⟩ 200 (some "/r") =
      ProgressReporter.emit_force ⟨3, 4, 5, 0, []⟩ 200 (some "/r")) ∧
    ((scan_directory true "/m" (.metaErr "io") none 0 0 []).2.head? =
      some ⟨0, 0, 0, some "/m"⟩) ∧
    ((scan_directory true "/e" (.dir .nil) none 0 9 []).2.head? =
      some ⟨0, 0, 0, some "/e"⟩) := by
  have h := C7_throttle_and_bracketing
  refine ⟨h.1 ⟨3, 4, 5, 0, []⟩ 5 (some "/r") (by decide),
    h.2.1 ⟨3, 4, 5, 0, []⟩ 200 (some "/r") (by decide),
    h.2.2.2.1 "/m" (.metaErr "io") none 0 0 [], ?_⟩
  exact (h.2.2.2.2 "/e" (.dir .nil) none 0 9 []
    (.mk "e" "/e" .Directory 0 [] none none)
    [⟨0, 0, 0, some "/e"⟩, ⟨0, 1, 0, some "/e"⟩] rfl).1

/-- C8: the scan invocation takes the root path and an optional retention
floor; it fails with the path-not-found error, before creating the
reporter or emitting anything, exactly when the root does not exist at
call time; an omitted floor behaves as the 1 MiB default, and the
deployed limits are 1000 children per directory and 10000 total nodes. -/
theorem C8_invocation (path : String) (obj : FsObj) (minb : Option Nat)
    (t0 t1 : Nat) (times : List Nat) :
    (scan_directory false path obj minb t0 t1 times =
      (.error (pathNotFoundMsg path), [])) ∧
    (∀ ex : Bool,
      (scan_directory ex path obj minb t0 t1 times).1 =
        .error (pathNotFoundMsg path) ↔ ex = false) ∧
    (scan_directory true path obj none t0 t1 times =
      scan_directory true path obj (some DEFAULT_MIN_NODE_BYTES)
        t0 t1 times) ∧
    (DEFAULT_MIN_NODE_BYTES = 1024 * 1024 ∧
      DEFAULT_MAX_CHILDREN_PER_DIR = 1000 ∧
      DEFAULT_MAX_TOTAL_NODES = 10000) := by
  refine ⟨rfl, ?_, rfl, rfl, rfl, rfl⟩
  intro ex
  cases ex with
  | false => simp [scan_directory]
  | true =>
      simp only [iff_false, Bool.true_eq_false, not_false_eq_true,
        iff_false_intro]
      intro hcontra
      unfold scan_directory at hcontra
      rw [if_pos rfl] at hcontra
      dsimp only at hcontra
      rcases hsc : scan_pruned_tree path obj
          ⟨minb.getD DEFAULT_MIN_NODE_BYTES, DEFAULT_MAX_CHILDREN_PER_DIR,
            DEFAULT_MAX_TOTAL_NODES⟩
          ((ProgressReporter.new t0).emit_force t0 (some path)) times
        with ⟨res, rep2, times2⟩
      rw [hsc] at hcontra
      cases res with
      | ok nd => simp at hcontra
      | error e =>
          simp only at hcontra
          injection hcontra with hcontra
          cases obj with
          | metaErr m =>
              injection hsc with h1
              injection h1 with h1
              exact metaMsg_ne_pathNotFound path m path (h1 ▸ hcontra)
          | dirErr m =>
              injection hsc with h1
              injection h1 with h1
              exact dirMsg_ne_pathNotFound path m path (h1 ▸ hcontra)
          | symlink => exact Except.noConfusion (congrArg Prod.fst hsc)
          | file s =>
              rw [scan_pruned_tree] at hsc
              exact Except.noConfusion (congrArg Prod.fst hsc)
          | other => exact Except.noConfusion (congrArg Prod.fst hsc)
          | dir items =>
              rw [scan_pruned_tree_dir] at hsc
              exact Except.noConfusion (congrArg Prod.fst hsc)

/-- Witness for C8 at a concrete path and filesystem. -/
theorem C8_witness :
    (scan_directory false "/x" (.dir .nil) none 0 0 [] =
      (.error (pathNotFoundMsg "/x"), [])) ∧
    ((scan_directory true "/x" (.dir .nil) none 0 0 []).1 =
        .error (pathNotFoundMsg "/x") ↔ True = False) ∧
    (scan_directory true "/x" (.dir .nil) none 0 0 [] =
      scan_directory true "/x" (.dir .nil) (some DEFAULT_MIN_NODE_BYTES)
        0 0 []) := by
  have h := C8_invocation "/x" (.dir .nil) none 0 0 []
  refine ⟨h.1, ?_, h.2.2.1⟩
  have h2 := h.2.1 true
  simpa using h2

/-- C9, as stated, is false on the code: a symlink scan root is returned
as a Symlink node whose `extension` field is computed from the root path,
so a symlink root at `/t/link.TXT` carries `extension = some "txt"` even
though its kind is Symlink, not File. -/
theorem C9_counterexample :
    (scan_pruned_tree "/t/link.TXT" .symlink
        ⟨DEFAULT_MIN_NODE_BYTES, 1000, 10000⟩ (.new 0) []).1 =
      .ok (.mk "link.TXT" "/t/link.TXT" .Symlink 0 [] (some "txt") none) ∧
    (some "txt" : Option String) ≠ none := by
  exact ⟨rfl, by decide⟩

/-- C9 (amended): Directory nodes always carry `extension = none`, and
within a directory scan's returned tree extension is populated only on
File nodes; only a non-directory scan root (File, Symlink or Other leaf)
carries the extension computed from the root path. -/
theorem C9_extension_only_files :
    (∀ (root : String) (obj : FsObj) (opts : ScanOptions)
        (rep : ProgressReporter) (times : List Nat) (node : FsNode),
      (scan_pruned_tree root obj opts rep times).1 = .ok node →
      ∀ m, InTree m node → m.kind = .Directory → m.extension = none) ∧
    (∀ (root : String) (items : Items) (opts : ScanOptions)
        (rep : ProgressReporter) (times : List Nat) (node : FsNode),
      (scan_pruned_tree root (.dir items) opts rep times).1 = .ok node →
      ∀ m, InTree m node → m.extension.isSome = true →
        m.kind = .File) := by
  constructor
  · intro root obj opts rep times node heq m hm hk
    cases obj with
    | metaErr e => exact Except.noConfusion heq
    | dirErr e => exact Except.noConfusion heq
    | symlink =>
        injection heq with heq
        subst heq
        rw [inTree_leaf hm] at hk ⊢
        exact absurd hk (by simp)
    | file s =>
        simp only [scan_pruned_tree] at heq
        injection heq with heq
        subst heq
        rw [inTree_leaf hm] at hk ⊢
        exact absurd hk (by simp)
    | other =>
        injection heq with heq
        subst heq
        rw [inTree_leaf hm] at hk ⊢
        exact absurd hk (by simp)
    | dir items =>
        rw [scan_pruned_tree_dir] at heq
        dsimp only at heq
        injection heq with heq
        subst heq
        rcases inTree_elim hm with h | ⟨c, hc, hmc⟩
        · subst h
          rfl
        · have hc' := mem_finalizeChildren (by simpa using hc)
          refine scanItems_pres
            (fun nd => ∀ m, InTree m nd → m.kind = .Directory →
              m.extension = none) opts ?_ ?_ root items 0 []
            (rootScanState rep times root) (by simp) c ?_ m hmc hk
          · intro nm p s e hs m hm hk2
            rw [inTree_leaf hm] at hk2 ⊢
            exact absurd hk2 (by simp)
          · intro nm p s kids hs hlen hks m hm hk2
            rcases inTree_elim hm with h | ⟨c2, hc2, hmc2⟩
            · subst h
              rfl
            · exact hks c2 (by simpa using hc2) m hmc2 hk2
          · show c ∈ (rootScan root items opts rep times).2.1
            exact hc'
  · intro root items opts rep times node heq m hm hsome
    rw [scan_pruned_tree_dir] at heq
    dsimp only at heq
    injection heq with heq
    subst heq
    rcases inTree_elim hm with h | ⟨c, hc, hmc⟩
    · subst h
      simp at hsome
    · have hc' := mem_finalizeChildren (by simpa using hc)
      refine scanItems_pres
        (fun nd => ∀ m, InTree m nd → m.extension.isSome = true →
          m.kind = .File) opts ?_ ?_ root items 0 []
        (rootScanState rep times root) (by simp) c ?_ m hmc hsome
      · intro nm p s e hs m hm _
        rw [inTree_leaf hm]
        rfl
      · intro nm p s kids hs hlen hks m hm hsome2
        rcases inTree_elim hm with h | ⟨c2, hc2, hmc2⟩
        · subst h
          simp at hsome2
        · exact hks c2 (by simpa using hc2) m hmc2 hsome2
      · show c ∈ (rootScan root items opts rep times).2.1
        exact hc'

/-- Witness for C9 (amended): the root Directory node of a concrete scan
has no extension, and the one retained node carrying an extension is a
File node. -/
theorem C9_witness :
    ((.mk "r" "/r" .Directory 5
        [.mk "a.TXT" "/r/a.TXT" .File 5 [] (some "txt") none]
        none none : FsNode).extension = none) ∧
    ((.mk "a.TXT" "/r/a.TXT" .File 5 [] (some "txt") none
        : FsNode).kind = .File) := by
  have h := C9_extension_only_files
  constructor
  · exact h.1 "/r" (.dir (.entry "a.TXT" (.file 5) .nil)) ⟨1, 10, 10⟩
      (.new 0) []
      (.mk "r" "/r" .Directory 5
        [.mk "a.TXT" "/r/a.TXT" .File 5 [] (some "txt") none] none none)
      rfl _ (.refl _) rfl
  · exact h.2 "/r" (.entry "a.TXT" (.file 5) .nil) ⟨1, 10, 10⟩
      (.new 0) []
      (.mk "r" "/r" .Directory 5
        [.mk "a.TXT" "/r/a.TXT" .File 5 [] (some "txt") none] none none)
      rfl (.mk "a.TXT" "/r/a.TXT" .File 5 [] (some "txt") none)
      (.child (by simp) (.refl _)) rfl

/-- C10: the node budget is consumed at admission and never refunded when
the per-directory sort-and-truncate discards an admitted candidate: with
`min_node_bytes = 1`, `max_children_per_dir = 1`, `max_total_nodes = 3`
and a root directory of three 5-byte files, the first two admissions
exhaust the budget (the second is later discarded by truncation), the
third file trips the hit-node-limit flag, and the scan returns a root
carrying the truncation diagnostic although the tree holds only 2 < 3
nodes. -/
theorem C10_budget_not_refunded :
    (scan_pruned_tree "/r"
        (.dir (.entry "a" (.file 5) (.entry "b" (.file 5)
          (.entry "c" (.file 5) .nil))))
        ⟨1, 1, 3⟩ (.new 0) []).1 =
      .ok (.mk "r" "/r" .Directory 15
        [.mk "a" "/r/a" .File 5 [] none none] none
        (some (truncationMsg 3))) ∧
    (rootScan "/r"
        (.entry "a" (.file 5) (.entry "b" (.file 5)
          (.entry "c" (.file 5) .nil)))
        ⟨1, 1, 3⟩ (.new 0) []).2.2.stats.hit_node_limit = true ∧
    countNodes (.mk "r" "/r" .Directory 15
        [.mk "a" "/r/a" .File 5 [] none none] none
        (some (truncationMsg 3))) = 2 ∧
    (2 : Nat) < 3 := by
  exact ⟨rfl, rfl, rfl, by decide⟩

end DiskCheck
